import Mathlib

/-!
Verification of the go-request repository: a fluent builder for HTTP
requests with JSON/XML serialization, TLS transport resolution, a
status-dispatching fetch layer and a mock-response registry for tests.

Go strings are modelled as lists of characters (`GoStr`); all inputs
exercised by the specification are ASCII, so Go byte slices are modelled
the same way.  Stateful code is modelled by explicit state passing,
fallible code by `Option`/`Except`, and a Go runtime fault such as a
nil-pointer dereference or an out-of-bounds index by a dedicated result
alternative.
-/

set_option autoImplicit false
set_option maxRecDepth 4000

namespace GoRequest

/-- A Go string (or byte slice; all relevant data is ASCII), modelled as a
list of characters. -/
abbrev GoStr := List Char

/-- Shorthand embedding of a Lean string literal as a `GoStr`. -/
def gs (s : String) : GoStr := s.data

/-- Go `strings.HasPrefix s p`: `s` starts with `p`. -/
def strHasPre (s p : GoStr) : Bool :=
  match p with
  | [] => true
  | d :: p2 =>
    match s with
    | [] => false
    | c :: s2 => c == d && strHasPre s2 p2

/-- Go `strings.HasSuffix s p`: `s` ends with `p`. -/
def strHasSuf (s p : GoStr) : Bool := strHasPre s.reverse p.reverse

/-- The `slash` local constant of `CombinePathComponents`. -/
def slash : GoStr := gs "/"

/--
The per-component normalization done by `CombinePathComponents` (both
revisions in the source define the same body, once exported and once as
the unexported `combinePathComponents`): the prefix `/` is trimmed if
present, then the suffix `/` is trimmed if present.  Go
`strings.TrimPrefix`/`strings.TrimSuffix` remove one occurrence, which
under the `HasPrefix`/`HasSuffix` guards is dropping `len(slash)`
characters at the corresponding end.
-/
def stripComponent (component : GoStr) : GoStr :=
  let working := if strHasPre component slash
    then component.drop slash.length else component
  if strHasSuf working slash
    then working.take (working.length - slash.length) else working

/-- The indexed loop of `CombinePathComponents`: a `/` is appended after
every stripped component except the last. -/
def CombinePathComponents : List GoStr → GoStr
  | [] => []
  | [component] => stripComponent component
  | component :: rest => stripComponent component ++ slash ++ CombinePathComponents rest

/-- Joining a list of strings with a single separator character between
consecutive elements (the join operation the spec describes for
`CombinePathComponents`, and the join used by `url.Values.Encode`). -/
def joinChar (sep : Char) : List GoStr → GoStr
  | [] => []
  | [s] => s
  | s :: rest => s ++ sep :: joinChar sep rest

/-- A string that is non-empty and neither starts nor ends with `/`. -/
def CleanStr (s : GoStr) : Prop :=
  s ≠ [] ∧ s.head? ≠ some '/' ∧ s.getLast? ≠ some '/'

theorem strHasPre_nil_right (t : GoStr) : strHasPre t [] = true := by
  cases t <;> rfl

theorem strHasPre_slash_iff (s : GoStr) :
    strHasPre s slash = true ↔ s.head? = some '/' := by
  cases s with
  | nil => simp [strHasPre, slash, gs]
  | cons a t =>
    show (a == '/' && strHasPre t []) = true ↔ _
    simp [strHasPre_nil_right]

theorem strHasSuf_slash_iff (s : GoStr) :
    strHasSuf s slash = true ↔ s.getLast? = some '/' := by
  rw [← List.head?_reverse]
  show strHasPre s.reverse slash = true ↔ _
  exact strHasPre_slash_iff s.reverse

theorem stripComponent_eq_self (s : GoStr)
    (h1 : s.head? ≠ some '/') (h2 : s.getLast? ≠ some '/') :
    stripComponent s = s := by
  have hp : strHasPre s slash = false := by
    rcases Bool.eq_false_or_eq_true (strHasPre s slash) with h | h
    · exact absurd ((strHasPre_slash_iff s).mp h) h1
    · exact h
  have hs : strHasSuf s slash = false := by
    rcases Bool.eq_false_or_eq_true (strHasSuf s slash) with h | h
    · exact absurd ((strHasSuf_slash_iff s).mp h) h2
    · exact h
  simp [stripComponent, hp, hs]

theorem combine_eq_joinChar (cs : List GoStr) :
    CombinePathComponents cs = joinChar '/' (cs.map stripComponent) := by
  induction cs with
  | nil => rfl
  | cons c rest ih =>
    cases rest with
    | nil => rfl
    | cons c2 rest2 =>
      show stripComponent c ++ slash ++ CombinePathComponents (c2 :: rest2) = _
      rw [ih]
      show _ = stripComponent c ++ '/' :: joinChar '/' (List.map stripComponent (c2 :: rest2))
      simp [slash, gs, List.append_assoc]

theorem joinChar_ne_nil (sep : Char) (s : GoStr) (rest : List GoStr) (h : s ≠ []) :
    joinChar sep (s :: rest) ≠ [] := by
  cases rest with
  | nil => exact h
  | cons r rest2 =>
    show s ++ sep :: joinChar sep (r :: rest2) ≠ []
    simp

theorem head?_joinChar (sep : Char) (s : GoStr) (rest : List GoStr) (h : s ≠ []) :
    (joinChar sep (s :: rest)).head? = s.head? := by
  cases rest with
  | nil => rfl
  | cons r rest2 =>
    show (s ++ sep :: joinChar sep (r :: rest2)).head? = s.head?
    cases s with
    | nil => exact absurd rfl h
    | cons a t => rfl

theorem getLast?_cons_of_ne_nil {α : Type} (a : α) (l : List α) (h : l ≠ []) :
    (a :: l).getLast? = l.getLast? := by
  cases l with
  | nil => exact absurd rfl h
  | cons b t => exact List.getLast?_cons_cons

theorem getLast?_joinChar (sep : Char) (l : List GoStr)
    (h : ∀ t ∈ l, t ≠ []) (hne : l ≠ []) :
    (joinChar sep l).getLast? = (l.getLast hne).getLast? := by
  induction l with
  | nil => exact absurd rfl hne
  | cons s rest ih =>
    cases rest with
    | nil => rfl
    | cons r rest2 =>
      have hr : r :: rest2 ≠ [] := by simp
      have hj : joinChar sep (r :: rest2) ≠ [] :=
        joinChar_ne_nil sep r rest2 (h r (by simp))
      show (s ++ sep :: joinChar sep (r :: rest2)).getLast? = _
      rw [List.getLast?_append_of_ne_nil _ (by simp),
        getLast?_cons_of_ne_nil _ _ hj,
        ih (fun t ht => h t (List.mem_cons_of_mem _ ht)) hr]
      rw [List.getLast_cons hr]

instance : DecidablePred CleanStr := fun s => by
  unfold CleanStr
  infer_instance

/-- Claim C4 counterexample: the claim is false as stated.  An empty input
segment does introduce a double slash (`["foo", "", "bar"]` gives
`"foo//bar"`), a leading empty segment yields a leading slash
(`["", "bar"]` gives `"/bar"`), and only a single leading slash is
stripped (`["//x"]` gives `"/x"`), so the output can begin with `/`. -/
theorem c4_counterexample :
    CombinePathComponents [gs "foo", gs "", gs "bar"] = gs "foo//bar" ∧
    CombinePathComponents [gs "", gs "bar"] = gs "/bar" ∧
    CombinePathComponents [gs "//x"] = gs "/x" := by decide

/-- Claim C4 (amended): `CombinePathComponents` strips a single leading and
a single trailing `/` from each segment and joins the results with exactly
one `/` between consecutive segments; when every stripped segment is
non-empty and neither starts nor ends with `/`, the result has no leading
and no trailing slash; combining `"/foo/"` and `"/bar/"` yields
`"foo/bar"`.  (Empty or slash-only segments can introduce leading,
trailing or doubled slashes, as the counterexample shows.) -/
theorem c4_combine_strips_and_joins (cs : List GoStr) :
    CombinePathComponents cs = joinChar '/' (cs.map stripComponent) ∧
    ((∀ c ∈ cs, CleanStr (stripComponent c)) →
      (CombinePathComponents cs).head? ≠ some '/' ∧
      (CombinePathComponents cs).getLast? ≠ some '/') ∧
    CombinePathComponents [gs "/foo/", gs "/bar/"] = gs "foo/bar" := by
  refine ⟨combine_eq_joinChar cs, ?_, by decide⟩
  intro hclean
  constructor
  · cases cs with
    | nil => simp [CombinePathComponents]
    | cons c rest =>
      have hc := hclean c (List.mem_cons_self c rest)
      rw [combine_eq_joinChar]
      rw [show List.map stripComponent (c :: rest)
          = stripComponent c :: List.map stripComponent rest from rfl]
      rw [head?_joinChar _ _ _ hc.1]
      exact hc.2.1
  · cases cs with
    | nil => simp [CombinePathComponents]
    | cons c rest =>
      have hne : List.map stripComponent (c :: rest) ≠ [] := by simp
      have hall : ∀ t ∈ List.map stripComponent (c :: rest), t ≠ [] := by
        intro t ht
        obtain ⟨o, ho, he⟩ := List.mem_map.mp ht
        exact he ▸ (hclean o ho).1
      rw [combine_eq_joinChar, getLast?_joinChar _ _ hall hne]
      have hmem := List.getLast_mem hne
      obtain ⟨o, ho, he⟩ := List.mem_map.mp hmem
      exact he ▸ (hclean o ho).2.2

theorem c4_combine_strips_and_joins_witness :
    (∀ c ∈ [gs "/foo/", gs "/bar/"], CleanStr (stripComponent c)) ∧
    ((CombinePathComponents [gs "/foo/", gs "/bar/"]).head? ≠ some '/' ∧
      (CombinePathComponents [gs "/foo/", gs "/bar/"]).getLast? ≠ some '/') :=
  ⟨by decide, (c4_combine_strips_and_joins [gs "/foo/", gs "/bar/"]).2.1 (by decide)⟩

/-- Claim C5 counterexample: the claim is false as stated.  For `a = "/"`
and `b = "x"` the combination is `"/x"`, but re-joining that single string
strips the leading slash and yields `"x"`, so `CombinePathComponents` is
not idempotent under re-joining its own output; the leading slash of the
input segment also survives into the output. -/
theorem c5_counterexample :
    CombinePathComponents [CombinePathComponents [gs "/", gs "x"]]
      ≠ CombinePathComponents [gs "/", gs "x"] ∧
    CombinePathComponents [gs "/", gs "x"] = gs "/x" ∧
    CombinePathComponents [CombinePathComponents [gs "/", gs "x"]] = gs "x" := by
  decide

/-- Claim C5 (amended): re-joining the output of `CombinePathComponents`
yields the same string whenever the two stripped segments are non-empty
and neither starts nor ends with `/` (in particular for the spec example
segments); for slash-only or empty segments idempotence fails, as the
counterexample shows. -/
theorem c5_combine_idempotent (a b : GoStr)
    (ha : CleanStr (stripComponent a)) (hb : CleanStr (stripComponent b)) :
    CombinePathComponents [CombinePathComponents [a, b]]
      = CombinePathComponents [a, b] := by
  have hab : CombinePathComponents [a, b]
      = stripComponent a ++ '/' :: stripComponent b := by
    show stripComponent a ++ slash ++ stripComponent b = _
    simp [slash, gs, List.append_assoc]
  show stripComponent (CombinePathComponents [a, b]) = CombinePathComponents [a, b]
  rw [hab]
  apply stripComponent_eq_self
  · cases hsa : stripComponent a with
    | nil => exact absurd hsa ha.1
    | cons x t =>
      show some x ≠ some '/'
      have hx := ha.2.1
      rw [hsa] at hx
      simpa using hx
  · rw [List.getLast?_append_of_ne_nil _ (by simp),
      getLast?_cons_of_ne_nil _ _ hb.1]
    exact hb.2.2

theorem c5_combine_idempotent_witness :
    CleanStr (stripComponent (gs "foo/")) ∧
    CombinePathComponents [CombinePathComponents [gs "foo/", gs "/bar/"]]
      = CombinePathComponents [gs "foo/", gs "/bar/"] :=
  ⟨by decide, c5_combine_idempotent (gs "foo/") (gs "/bar/") (by decide) (by decide)⟩

/-! ## Query values and the request descriptor -/

/-- Go `url.Values` (`map[string][]string`), modelled as an association
list whose keys are kept distinct; insertion order stands in for map
iteration order, which no claim observes. -/
abbrev Values := List (GoStr × List GoStr)

/-- `url.Values.Set`: replaces the values of `key` by the one-element list
`[value]`. -/
def valuesSet (vs : Values) (key value : GoStr) : Values :=
  match vs with
  | [] => [(key, [value])]
  | (k, old) :: rest =>
    if k = key then (key, [value]) :: rest else (k, old) :: valuesSet rest key value

/-- `url.Values.Add`: appends `value` to the values of `key`. -/
def valuesAdd (vs : Values) (key value : GoStr) : Values :=
  match vs with
  | [] => [(key, [value])]
  | (k, old) :: rest =>
    if k = key then (key, old ++ [value]) :: rest else (k, old) :: valuesAdd rest key value

/-- Go map indexing `v[key]` on a possibly-nil `url.Values`: the stored
slice, or the nil (empty) slice when the key or the map is absent. -/
def valuesIndex (vs : Option Values) (key : GoStr) : List GoStr :=
  match vs with
  | none => []
  | some l =>
    match l.find? (fun kv => kv.1 = key) with
    | some kv => kv.2
    | none => []

/-- Go `len` of a possibly-nil `url.Values`: the number of keys. -/
def valuesLen (vs : Option Values) : Nat :=
  match vs with
  | none => 0
  | some l => l.length

/--
The `HttpRequest` descriptor struct.  The two revisions in the source
differ only in the timeout field (`TimeoutMilliseconds int64` versus
`Timeout time.Duration`) and the logger fields, none of which any claim
distinguishes beyond zero versus non-zero, so a single `Int` timeout
field stands for both.  Nil-able Go maps are `Option Values`.
-/
structure HttpRequestDescr where
  scheme : GoStr := []
  host : GoStr := []
  path : GoStr := []
  queryString : Option Values := none
  header : Option Values := none
  postData : Option Values := none
  basicAuthUsername : GoStr := []
  basicAuthPassword : GoStr := []
  verb : GoStr := []
  contentType : GoStr := []
  timeout : Int := 0
  tlsCertPath : GoStr := []
  tlsKeyPath : GoStr := []
  body : GoStr := []
  deriving DecidableEq

/-- `NewRequest`: a fresh descriptor with scheme `http` and verb `GET`. -/
def NewRequest : HttpRequestDescr := { scheme := gs "http", verb := gs "GET" }

def WithScheme (hr : HttpRequestDescr) (scheme : GoStr) : HttpRequestDescr :=
  { hr with scheme := scheme }

def WithHost (hr : HttpRequestDescr) (host : GoStr) : HttpRequestDescr :=
  { hr with host := host }

/-- `WithPath` with no variadic arguments (`fmt.Sprintf` on a pattern
without verbs is the identity; no claim formats arguments). -/
def WithPath (hr : HttpRequestDescr) (path_pattern : GoStr) : HttpRequestDescr :=
  { hr with path := path_pattern }

def WithHeader (hr : HttpRequestDescr) (field value : GoStr) : HttpRequestDescr :=
  { hr with header := some (valuesSet ((hr.header).getD []) field value) }

def WithQueryString (hr : HttpRequestDescr) (field value : GoStr) : HttpRequestDescr :=
  { hr with queryString := some (valuesAdd ((hr.queryString).getD []) field value) }

def WithPostData (hr : HttpRequestDescr) (field value : GoStr) : HttpRequestDescr :=
  { hr with postData := some (valuesAdd ((hr.postData).getD []) field value) }

def WithBasicAuth (hr : HttpRequestDescr) (username password : GoStr) : HttpRequestDescr :=
  { hr with basicAuthUsername := username, basicAuthPassword := password }

def WithTimeout (hr : HttpRequestDescr) (timeout : Int) : HttpRequestDescr :=
  { hr with timeout := timeout }

def WithTLSCert (hr : HttpRequestDescr) (cert_path : GoStr) : HttpRequestDescr :=
  { hr with tlsCertPath := cert_path }

def WithTLSKey (hr : HttpRequestDescr) (key_path : GoStr) : HttpRequestDescr :=
  { hr with tlsKeyPath := key_path }

def WithVerb (hr : HttpRequestDescr) (verb : GoStr) : HttpRequestDescr :=
  { hr with verb := verb }

def AsGet (hr : HttpRequestDescr) : HttpRequestDescr := { hr with verb := gs "GET" }

def AsPost (hr : HttpRequestDescr) : HttpRequestDescr := { hr with verb := gs "POST" }

def WithContentType (hr : HttpRequestDescr) (content_type : GoStr) : HttpRequestDescr :=
  { hr with contentType := content_type }

def WithRawBody (hr : HttpRequestDescr) (body : GoStr) : HttpRequestDescr :=
  { hr with body := body }

/-! ## URL parsing and `WithUrl` -/

/-- Go `strings.Split(s, sep)` for a one-character separator (the source
only splits on `"&"` and `"="`): `Split("", sep) = [""]`. -/
def goSplit (sep : Char) (s : GoStr) : List GoStr :=
  match s with
  | [] => [[]]
  | c :: rest =>
    if c = sep then [] :: goSplit sep rest
    else
      match goSplit sep rest with
      | [] => [[c]]
      | g :: rest2 => (c :: g) :: rest2

/-- The result of Go `url.Parse` restricted to the fields the source
reads. -/
structure GoUrl where
  scheme : GoStr := []
  host : GoStr := []
  path : GoStr := []
  rawQuery : GoStr := []
  deriving DecidableEq

/-- Split a string at the first occurrence of `c`; the second component
is empty when `c` does not occur. -/
def splitOnce (c : Char) (s : GoStr) : GoStr × GoStr :=
  match s with
  | [] => ([], [])
  | x :: rest =>
    if x = c then ([], rest)
    else
      let p := splitOnce c rest
      (x :: p.1, p.2)

/-- Split at the first occurrence of `"://"`, if any. -/
def splitSchemeSep (s : GoStr) : Option (GoStr × GoStr) :=
  match s with
  | ':' :: '/' :: '/' :: rest => some ([], rest)
  | c :: rest =>
    match splitSchemeSep rest with
    | some (a, b) => some (c :: a, b)
    | none => none
  | [] => none

/-- Split an authority-plus-path string at the first `/`: the host, and
the path including its leading `/`. -/
def splitHostPath (s : GoStr) : GoStr × GoStr :=
  match s with
  | [] => ([], [])
  | c :: rest =>
    if c = '/' then ([], c :: rest)
    else
      let p := splitHostPath rest
      (c :: p.1, p.2)

/--
Modelled from Go `net/url.Parse` (external stdlib).  `Parse` splits the
fragment off at the first `#` before anything else, so a query hidden
behind a fragment is never seen; it then errors with
"missing protocol scheme" when the remaining string starts with `:`
(`none` here).  Otherwise, for the shapes in scope: everything after the
first `?` is the raw query (stored verbatim), the scheme stands before
`"://"`, the host runs to the next `/` and the path is the rest, all
copied verbatim.  Within the `goodUrl` class below this provably follows
`Parse`; outside it `Parse` has further error cases (control bytes, bad
percent-escapes, user info, bad ports) and normalizations that this
model does not reproduce, which is why the C7 theorem is scoped to
`goodUrl` plus the leading-colon failure.
-/
def urlParse (s : GoStr) : Option GoUrl :=
  let u := (splitOnce '#' s).1
  if u.head? = some ':' then none
  else
    let q := splitOnce '?' u
    match splitSchemeSep q.1 with
    | some (sch, rest) =>
      let hp := splitHostPath rest
      some { scheme := sch, host := hp.1, path := hp.2, rawQuery := q.2 }
    | none => some { path := q.1, rawQuery := q.2 }

/-- A printable ASCII character that is not a percent sign (no control
bytes, so `Parse`'s CTL check passes, and no percent-escapes, so its
unescaping never runs or fails). -/
def printableNoPct (c : Char) : Bool :=
  decide (32 ≤ c.toNat) && decide (c.toNat ≤ 126) && !(c = '%')

def isLowerAlpha (c : Char) : Bool :=
  decide (97 ≤ c.toNat) && decide (c.toNat ≤ 122)

/-- Scheme characters after the first, per Go `getScheme` (already
lower-case, so `Parse`'s lowercasing is the identity); `:` is excluded,
so inside `goodUrl` the first `:` of the string is the one of `"://"`,
exactly the split `getScheme` performs. -/
def validSchemeChar (c : Char) : Bool :=
  isLowerAlpha c || c.isDigit || c = '+' || c = '-' || c = '.'

def validScheme : GoStr → Bool
  | [] => false
  | c :: rest => isLowerAlpha c && rest.all validSchemeChar

def validHostChar (c : Char) : Bool := c.isAlphanum || c = '-' || c = '.'

/-- An authority Go copies verbatim: registered-name characters with at
most one `:` followed by a digits-only port — no user info (`@`), no
brackets, nothing `parseHost` rejects or unescapes. -/
def validHost : GoStr → Bool
  | [] => true
  | c :: rest => if c = ':' then rest.all Char.isDigit else validHostChar c && validHost rest

/-- The class of URL strings on which `urlParse` provably agrees with Go
`url.Parse`: printable ASCII without percent-escapes, an absolute URL
whose (lower-case) scheme and host are plain enough that `Parse` stores
every component verbatim. -/
def goodUrl (s : GoStr) : Bool :=
  s.all printableNoPct &&
  (match urlParse s with
   | none => false
   | some u => validScheme u.scheme && validHost u.host)

/-- The query loop of `WithUrl`: each non-empty `&`-separated parameter is
split on `"="` and `key_value[0]`, `key_value[1]` are passed to
`url.Values.Set`.  When the parameter contains no `"="` the split has a
single element and the access `key_value[1]` is an out-of-bounds index —
a Go panic, modelled as `none`. -/
def setQueryParams : List GoStr → Values → Option Values
  | [], acc => some acc
  | param :: rest, acc =>
    if param = [] then setQueryParams rest acc
    else
      match goSplit '=' param with
      | kv0 :: kv1 :: _ => setQueryParams rest (valuesSet acc kv0 kv1)
      | _ => none

/-- `WithUrl`: parses the URL string, overwrites scheme, host and path,
resets the query map and fills it from the raw query.  The source
discards the `url.Parse` error (`working_url, _ := url.Parse(...)`), so
when `Parse` fails `working_url` is nil and reading `working_url.Scheme`
dereferences it — a panic, modelled as `none` like the out-of-bounds
panic on a parameter without `=`. -/
def WithUrl (hr : HttpRequestDescr) (url_string : GoStr) : Option HttpRequestDescr :=
  match urlParse url_string with
  | none => none
  | some working_url =>
    (setQueryParams (goSplit '&' working_url.rawQuery) []).map fun q =>
      { hr with scheme := working_url.scheme, host := working_url.host,
                path := working_url.path, queryString := some q }

theorem goSplit_ne_nil (sep : Char) (s : GoStr) : goSplit sep s ≠ [] := by
  induction s with
  | nil => simp [goSplit]
  | cons c rest ih =>
    simp only [goSplit]
    split
    · simp
    · rcases h : goSplit sep rest with _ | ⟨g, rest2⟩ <;> simp

theorem goSplit_of_not_mem (sep : Char) (s : GoStr) (h : sep ∉ s) :
    goSplit sep s = [s] := by
  induction s with
  | nil => rfl
  | cons c rest ih =>
    have hc : ¬c = sep := fun he => h (he ▸ List.mem_cons_self c rest)
    have hr : sep ∉ rest := fun hm => h (List.mem_cons_of_mem c hm)
    simp only [goSplit, if_neg hc, ih hr]

theorem goSplit_of_mem (sep : Char) (s : GoStr) (h : sep ∈ s) :
    ∃ k v t, goSplit sep s = k :: v :: t := by
  induction s with
  | nil => exact absurd h (List.not_mem_nil sep)
  | cons c rest ih =>
    by_cases hc : c = sep
    · rcases hg : goSplit sep rest with _ | ⟨g, t⟩
      · exact absurd hg (goSplit_ne_nil sep rest)
      · exact ⟨[], g, t, by simp only [goSplit, if_pos hc, hg]⟩
    · have hr : sep ∈ rest := by
        rcases List.mem_cons.mp h with he | hm
        · exact absurd he.symm hc
        · exact hm
      obtain ⟨k, v, t, hkv⟩ := ih hr
      exact ⟨c :: k, v, t, by simp only [goSplit, if_neg hc, hkv]⟩

theorem setQueryParams_total : ∀ (ps : List GoStr) (acc : Values),
    (∀ p ∈ ps, p ≠ [] → '=' ∈ p) → ∃ q, setQueryParams ps acc = some q
  | [], acc, _ => ⟨acc, rfl⟩
  | p :: rest, acc, h => by
    by_cases hp : p = []
    · have hrec := setQueryParams_total rest acc
        (fun t ht => h t (List.mem_cons_of_mem p ht))
      simpa [setQueryParams, hp] using hrec
    · obtain ⟨k, v, t, hkv⟩ :=
        goSplit_of_mem '=' p (h p (List.mem_cons_self p rest) hp)
      have hrec := setQueryParams_total rest (valuesSet acc k v)
        (fun t2 ht2 => h t2 (List.mem_cons_of_mem p ht2))
      simpa [setQueryParams, hp, hkv] using hrec

theorem setQueryParams_panics : ∀ (ps : List GoStr) (acc : Values) (p : GoStr),
    p ∈ ps → p ≠ [] → '=' ∉ p → setQueryParams ps acc = none
  | [], _, p, hp, _, _ => absurd hp (List.not_mem_nil p)
  | q :: rest, acc, p, hp, hne, hnm => by
    rcases List.mem_cons.mp hp with he | hm
    · subst he
      simp [setQueryParams, hne, goSplit_of_not_mem '=' p hnm]
    · by_cases hq : q = []
      · have hrec := setQueryParams_panics rest acc p hm hne hnm
        simpa [setQueryParams, hq] using hrec
      · rcases hsp : goSplit '=' q with _ | ⟨a, _ | ⟨b, t⟩⟩
        · exact absurd hsp (goSplit_ne_nil '=' q)
        · simp [setQueryParams, hq, hsp]
        · have hrec := setQueryParams_panics rest (valuesSet acc a b) p hm hne hnm
          simpa [setQueryParams, hq, hsp] using hrec

/-- Claim C6: `WithUrl` on a fresh descriptor with the test URL yields
scheme `http`, host `localhost:5001`, path `/api/v1/path/2`, exactly the
two query keys `env ↦ [dev]` and `foo ↦ [bar]`, and the verb stays the
default `GET`. -/
theorem c6_with_url_parses :
    ∃ hr2, WithUrl NewRequest
        (gs "http://localhost:5001/api/v1/path/2?env=dev&foo=bar") = some hr2 ∧
      hr2.scheme = gs "http" ∧ hr2.host = gs "localhost:5001" ∧
      hr2.path = gs "/api/v1/path/2" ∧
      valuesIndex hr2.queryString (gs "env") = [gs "dev"] ∧
      valuesIndex hr2.queryString (gs "foo") = [gs "bar"] ∧
      valuesLen hr2.queryString = 2 ∧ hr2.verb = gs "GET" :=
  ⟨{ NewRequest with
      scheme := gs "http", host := gs "localhost:5001", path := gs "/api/v1/path/2",
      queryString := some [(gs "env", [gs "dev"]), (gs "foo", [gs "bar"])] },
    by decide, by decide, by decide, by decide, by decide, by decide, by decide,
    by decide⟩

/-- Claim C7 counterexample: the claim is false as stated.  `WithUrl` on a
URL whose query holds a parameter with no `=` performs an out-of-bounds
index (`key_value[1]` on a one-element slice) — a Go runtime panic,
modelled as `none` — and on a string `url.Parse` rejects (a leading `:`
gives "missing protocol scheme") the discarded error leaves the parsed
URL nil, so reading `working_url.Scheme` dereferences a nil pointer:
this builder method can panic. -/
theorem c7_counterexample :
    WithUrl NewRequest (gs "http://localhost:5001/api/v1/path/2?foo") = none ∧
    WithUrl NewRequest (gs "://foo") = none := by
  decide

/-- Claim C7 (amended): builder methods that only manipulate in-memory
descriptor state never fail — with the single exception of `WithUrl`.
`WithUrl` panics via a nil dereference whenever `url.Parse` rejects the
string (its error is discarded; e.g. the leading-colon
"missing protocol scheme" case), and on a well-formed URL (`goodUrl`:
printable ASCII, no percent-escapes, plain lower-case scheme and plain
host, the fragment split off before the query as `Parse` does) it panics
with an out-of-bounds index exactly when the raw query has a non-empty
`&`-segment containing no `=`; when every non-empty segment contains
`=`, it returns the updated descriptor.  Materialization and the
`Fetch*` methods return errors to the caller. -/
theorem c7_with_url_totality (hr : HttpRequestDescr) (s : GoStr) :
    (goodUrl s = true → ∀ u, urlParse s = some u →
      ((∀ p ∈ goSplit '&' u.rawQuery, p ≠ [] → '=' ∈ p) →
        ∃ hr2, WithUrl hr s = some hr2) ∧
      (∀ p ∈ goSplit '&' u.rawQuery, p ≠ [] → '=' ∉ p →
        WithUrl hr s = none)) ∧
    (urlParse s = none → WithUrl hr s = none) := by
  constructor
  · intro _ u hu
    constructor
    · intro h
      obtain ⟨q, hq⟩ := setQueryParams_total (goSplit '&' u.rawQuery) [] h
      rcases hw : WithUrl hr s with _ | hr2
      · simp only [WithUrl, hu, hq] at hw
        exact absurd hw (by simp)
      · exact ⟨hr2, rfl⟩
    · intro p hp hne hnm
      simp [WithUrl, hu, setQueryParams_panics _ [] p hp hne hnm]
  · intro hn
    simp [WithUrl, hn]

theorem c7_with_url_totality_witness :
    goodUrl (gs "http://localhost:5001/api/v1/path/2?env=dev&foo=bar") = true ∧
    (∃ hr2, WithUrl NewRequest
        (gs "http://localhost:5001/api/v1/path/2?env=dev&foo=bar") = some hr2) :=
  ⟨by decide,
    ((c7_with_url_totality NewRequest
        (gs "http://localhost:5001/api/v1/path/2?env=dev&foo=bar")).1 (by decide)
      ⟨gs "http", gs "localhost:5001", gs "/api/v1/path/2", gs "env=dev&foo=bar"⟩
      (by decide)).1 (by decide)⟩

/-! ## URL encoding and materialization (`createHttpRequest`) -/

/-- Upper-case hexadecimal digit, as used by Go percent-escaping. -/
def upperHexDigit (n : Nat) : Char :=
  if n < 10 then Char.ofNat (48 + n) else Char.ofNat (55 + n)

/-- Go `url.QueryEscape` on one character (one byte; all data in scope is
ASCII): unreserved characters kept, space becomes `+`, anything else a
percent-escape. -/
def escapeQueryChar (c : Char) : GoStr :=
  if c.isAlphanum || c = '-' || c = '_' || c = '.' || c = '~' then [c]
  else if c = ' ' then ['+']
  else ['%', upperHexDigit (c.toNat / 16 % 16), upperHexDigit (c.toNat % 16)]

/-- Go `url.QueryEscape` (external stdlib). -/
def queryEscape (s : GoStr) : GoStr :=
  s.foldr (fun c acc => escapeQueryChar c ++ acc) []

/-- Byte-wise lexicographic order on strings, as `sort.Strings` uses. -/
def strLe : GoStr → GoStr → Bool
  | [], _ => true
  | _ :: _, [] => false
  | a :: as2, b :: bs2 => if a = b then strLe as2 bs2 else decide (a < b)

def insertSortedKV (kv : GoStr × List GoStr) : Values → Values
  | [] => [kv]
  | kv2 :: rest =>
    if strLe kv.1 kv2.1 then kv :: kv2 :: rest else kv2 :: insertSortedKV kv rest

/-- Sort the entries of a `Values` by key (Go `Encode` sorts the keys). -/
def sortByKey : Values → Values
  | [] => []
  | kv :: rest => insertSortedKV kv (sortByKey rest)

/-- Go `url.Values.Encode` (external stdlib): keys in sorted order, each
value as `key=value` with both sides query-escaped, joined by `&`; the
nil map encodes to the empty string. -/
def urlValuesEncode (vs : Option Values) : GoStr :=
  match vs with
  | none => []
  | some l =>
    joinChar '&'
      ((sortByKey l).foldr
        (fun kv acc => kv.2.map (fun v => queryEscape kv.1 ++ '=' :: queryEscape v) ++ acc)
        [])

/-- `createUrl` rendered to its string form: Go builds
`url.URL{Scheme, Host, Path}` with `RawQuery = QueryString.Encode()` and
the request constructor consumes `working_url.String()`, which for the
host-bearing URLs in scope is `scheme://host path` plus `?rawQuery` when
the query is non-empty (claims exercise no path characters that
`URL.String` would escape). -/
def createUrl (hr : HttpRequestDescr) : GoStr :=
  hr.scheme ++ gs "://" ++ hr.host ++ hr.path ++
    (if urlValuesEncode hr.queryString = [] then []
     else '?' :: urlValuesEncode hr.queryString)

/-- Modelled from Go `net/http` (external stdlib): a method is valid iff
non-empty and made of RFC 7230 token characters. -/
def isTokenChar (c : Char) : Bool :=
  c.isAlphanum ||
    (gs "!#$%&*+-.^_|~" ++ [Char.ofNat 39, Char.ofNat 96]).contains c

def validMethod (method : GoStr) : Bool :=
  !method.isEmpty && method.all isTokenChar

/-- The transport-ready request produced by materialization: the fields of
Go `http.Request` the source writes. -/
structure GoHttpRequest where
  method : GoStr
  urlStr : GoStr
  bodyPayload : Option GoStr
  header : Values
  basicAuth : Option (GoStr × GoStr)
  deriving DecidableEq

/-- Modelled from Go `net/http.NewRequest` (external stdlib): fails iff
the method is invalid; re-parsing the URL string `createUrl` produced is
modelled as succeeding (`url.Parse` rejects only control characters,
which no descriptor in scope contains). -/
def httpNewRequest (method urlStr : GoStr) (body : Option GoStr) : Option GoHttpRequest :=
  if validMethod method then
    some { method := method, urlStr := urlStr, bodyPayload := body,
           header := [], basicAuth := none }
  else none

/-- The errors `createHttpRequest` can return: the body/post-data
conflict (`"Cant set both a body and have post data!"`), or the error
`http.NewRequest` returned on the post-data branch. -/
inductive RequestError where
  | conflictingBody
  | newRequestFailed
  deriving DecidableEq

/-- Outcome of `createHttpRequest`.  On the raw-body and empty branches
the source discards the `http.NewRequest` error (`body_req, _ := ...`), so
when that call fails `req` is nil: a later `SetBasicAuth`/`Header.Set`
then dereferences a nil pointer (`panicked`), and with no such write the
function returns a nil request and a nil error (`nilRequest`). -/
inductive MatResult where
  | materialized (req : GoHttpRequest)
  | failed (e : RequestError)
  | nilRequest
  | panicked
  deriving DecidableEq

/-- `hr.Body != ""`. -/
def bodySet (hr : HttpRequestDescr) : Bool := !hr.body.isEmpty

/-- `hr.PostData != nil && len(hr.PostData) > 0`. -/
def postDataSet (hr : HttpRequestDescr) : Bool :=
  match hr.postData with
  | some pd => decide (0 < pd.length)
  | none => false

/-- Does ranging over the `Header` map perform at least one `Set` call? -/
def headerAny (h : Option Values) : Bool :=
  match h with
  | none => false
  | some l => l.any (fun kv => !kv.2.isEmpty)

/-- The `req.Header.Set("Content-Type", "application/x-www-form-urlencoded")`
call on the post-data branch. -/
def withFormContentType (r : GoHttpRequest) : GoHttpRequest :=
  { r with header := valuesSet r.header (gs "Content-Type")
                       (gs "application/x-www-form-urlencoded") }

/-- The loop applying custom headers: `req.Header.Set(key, value)` for
every value, so for a repeated key the last value wins. -/
def applyHeaders : Values → Values → Values
  | [], acc => acc
  | (k, vlist) :: rest, acc =>
    applyHeaders rest (vlist.foldl (fun a v => valuesSet a k v) acc)

/-- The tail of `createHttpRequest`: basic auth when the username is
non-empty, then the content-type override, then all custom headers. -/
def applyRequestOptions (hr : HttpRequestDescr) (req : GoHttpRequest) : GoHttpRequest :=
  let req1 := if hr.basicAuthUsername ≠ [] then
      { req with basicAuth := some (hr.basicAuthUsername, hr.basicAuthPassword) }
    else req
  let req2 := if hr.contentType ≠ [] then
      { req1 with header := valuesSet req1.header (gs "Content-Type") hr.contentType }
    else req1
  { req2 with header := applyHeaders ((hr.header).getD []) req2.header }

/-- Continuation after a branch whose `http.NewRequest` error was
discarded: a nil request panics on the first later field write, else it
is returned as-is with a nil error. -/
def finishRequest (hr : HttpRequestDescr) (req : Option GoHttpRequest) : MatResult :=
  match req with
  | some r => .materialized (applyRequestOptions hr r)
  | none =>
    if hr.basicAuthUsername ≠ [] || hr.contentType ≠ [] || headerAny hr.header then
      .panicked
    else .nilRequest

/--
`createHttpRequest`: fails when both a raw body and non-empty post data
are set; otherwise the raw body, the URL-encoded post data (with the
form content type) or no payload becomes the request body, and basic
auth, content-type override and custom headers are applied in that
order.  Identical in both revisions of the source.
-/
def createHttpRequest (hr : HttpRequestDescr) : MatResult :=
  if bodySet hr && postDataSet hr then .failed .conflictingBody
  else if bodySet hr then
    finishRequest hr (httpNewRequest hr.verb (createUrl hr) (some hr.body))
  else
    match hr.postData with
    | some pd =>
      match httpNewRequest hr.verb (createUrl hr) (some (urlValuesEncode (some pd))) with
      | none => .failed .newRequestFailed
      | some req => finishRequest hr (some (withFormContentType req))
    | none => finishRequest hr (httpNewRequest hr.verb (createUrl hr) none)

theorem bodySet_iff (hr : HttpRequestDescr) : bodySet hr = true ↔ hr.body ≠ [] := by
  simp [bodySet]

theorem httpNewRequest_of_valid (m u : GoStr) (b : Option GoStr)
    (hv : validMethod m = true) :
    ∃ r, httpNewRequest m u b = some r ∧ r.bodyPayload = b :=
  ⟨{ method := m, urlStr := u, bodyPayload := b, header := [], basicAuth := none },
    by simp [httpNewRequest, hv], rfl⟩

theorem applyRequestOptions_bodyPayload (hr : HttpRequestDescr) (r : GoHttpRequest) :
    (applyRequestOptions hr r).bodyPayload = r.bodyPayload := by
  rw [applyRequestOptions]
  by_cases h1 : hr.basicAuthUsername ≠ [] <;>
    by_cases h2 : hr.contentType ≠ [] <;> simp [h1, h2]

theorem finishRequest_ne_failed (hr : HttpRequestDescr) (req : Option GoHttpRequest)
    (e : RequestError) : finishRequest hr req ≠ .failed e := by
  cases req with
  | some r => simp [finishRequest]
  | none =>
    rw [finishRequest]
    split <;> simp

/-- Claim C3: materializing fails with the conflicting-body error when
both the raw body and (non-empty) post-form data are set, and succeeds
when only one of them is set, all other fields being valid (the verb is
a valid HTTP method token; the other builder-produced fields cannot make
materialization fail). -/
theorem c3_body_form_conflict (hr : HttpRequestDescr)
    (hv : validMethod hr.verb = true) :
    (hr.body ≠ [] → postDataSet hr = true →
      createHttpRequest hr = .failed .conflictingBody) ∧
    (hr.body ≠ [] → postDataSet hr = false →
      ∃ req, createHttpRequest hr = .materialized req) ∧
    (hr.body = [] → postDataSet hr = true →
      ∃ req, createHttpRequest hr = .materialized req) := by
  refine ⟨?_, ?_, ?_⟩
  · intro h1 h2
    have hb : bodySet hr = true := (bodySet_iff hr).mpr h1
    simp [createHttpRequest, hb, h2]
  · intro h1 h2
    have hb : bodySet hr = true := (bodySet_iff hr).mpr h1
    obtain ⟨r, hrr, -⟩ := httpNewRequest_of_valid hr.verb (createUrl hr) (some hr.body) hv
    exact ⟨applyRequestOptions hr r,
      by simp [createHttpRequest, hb, h2, hrr, finishRequest]⟩
  · intro h1 h2
    have hb : bodySet hr = false := by simp [bodySet, h1]
    rcases hpd : hr.postData with _ | pd
    · rw [postDataSet, hpd] at h2
      exact absurd h2 (by simp)
    · obtain ⟨r, hrr, -⟩ := httpNewRequest_of_valid hr.verb (createUrl hr)
        (some (urlValuesEncode (some pd))) hv
      refine ⟨applyRequestOptions hr (withFormContentType r), ?_⟩
      simp [createHttpRequest, hb, hpd, hrr, finishRequest]

theorem c3_body_form_conflict_witness :
    validMethod NewRequest.verb = true ∧
    createHttpRequest (WithPostData (WithRawBody NewRequest (gs "xyz"))
        (gs "foo") (gs "bar")) = .failed .conflictingBody ∧
    (∃ req, createHttpRequest (WithRawBody NewRequest (gs "xyz"))
        = .materialized req) :=
  ⟨by decide,
    (c3_body_form_conflict (WithPostData (WithRawBody NewRequest (gs "xyz"))
        (gs "foo") (gs "bar")) (by decide)).1 (by decide) (by decide),
    (c3_body_form_conflict (WithRawBody NewRequest (gs "xyz"))
        (by decide)).2.1 (by decide) (by decide)⟩

/-- Claim C10: with an empty raw body, materialization never returns the
conflicting-body error even when post-form data is set; the conflict is
reported exactly when the raw body is non-empty and the post-data map is
non-nil and non-empty; and with an empty body and a non-nil post-data
map, the URL-encoded form data becomes the request payload. -/
theorem c10_empty_body_no_conflict (hr : HttpRequestDescr) :
    (hr.body = [] → createHttpRequest hr ≠ .failed .conflictingBody) ∧
    (createHttpRequest hr = .failed .conflictingBody ↔
      hr.body ≠ [] ∧ postDataSet hr = true) ∧
    (∀ pd, hr.body = [] → hr.postData = some pd → validMethod hr.verb = true →
      ∃ req, createHttpRequest hr = .materialized req ∧
        req.bodyPayload = some (urlValuesEncode (some pd))) := by
  have hiff : createHttpRequest hr = .failed .conflictingBody ↔
      hr.body ≠ [] ∧ postDataSet hr = true := by
    constructor
    · intro h
      by_cases hb : bodySet hr = true
      · by_cases hp : postDataSet hr = true
        · exact ⟨(bodySet_iff hr).mp hb, hp⟩
        · have hp2 := eq_false_of_ne_true hp
          simp only [createHttpRequest, hb, hp2, Bool.and_false,
            Bool.false_eq_true, if_false, if_true] at h
          exact absurd h (finishRequest_ne_failed hr _ _)
      · have hb2 : bodySet hr = false := eq_false_of_ne_true hb
        simp only [createHttpRequest, hb2, Bool.false_and,
          Bool.false_eq_true, if_false] at h
        rcases hpd : hr.postData with _ | pd
        · simp only [hpd] at h
          exact absurd h (finishRequest_ne_failed hr _ _)
        · simp only [hpd] at h
          rcases hnr : httpNewRequest hr.verb (createUrl hr)
              (some (urlValuesEncode (some pd))) with _ | req
          · simp only [hnr] at h
            simp at h
          · simp only [hnr] at h
            exact absurd h (finishRequest_ne_failed hr _ _)
    · intro ⟨h1, h2⟩
      simp [createHttpRequest, (bodySet_iff hr).mpr h1, h2]
  refine ⟨?_, hiff, ?_⟩
  · intro h1 hc
    exact absurd (hiff.mp hc).1 (by simp [h1])
  · intro pd h1 hpd hv
    have hb : bodySet hr = false := by simp [bodySet, h1]
    obtain ⟨r, hrr, hpay⟩ := httpNewRequest_of_valid hr.verb (createUrl hr)
      (some (urlValuesEncode (some pd))) hv
    refine ⟨applyRequestOptions hr (withFormContentType r), ?_, ?_⟩
    · simp [createHttpRequest, hb, hpd, hrr, finishRequest]
    · rw [applyRequestOptions_bodyPayload]
      simpa [withFormContentType] using hpay

theorem c10_empty_body_no_conflict_witness :
    (NewRequest.body = [] ∧
      createHttpRequest (WithPostData NewRequest (gs "foo") (gs "bar"))
        ≠ .failed .conflictingBody) ∧
    (∃ req, createHttpRequest (WithPostData NewRequest (gs "foo") (gs "bar"))
        = .materialized req ∧
      req.bodyPayload = some (urlValuesEncode (some [(gs "foo", [gs "bar"])]))) :=
  ⟨⟨rfl, (c10_empty_body_no_conflict
      (WithPostData NewRequest (gs "foo") (gs "bar"))).1 rfl⟩,
    (c10_empty_body_no_conflict (WithPostData NewRequest (gs "foo") (gs "bar"))).2.2
      [(gs "foo", [gs "bar"])] rfl rfl (by decide)⟩

/-! ## The dispatch layer: `handleFetch` -/

instance {ε α : Type} [DecidableEq ε] [DecidableEq α] : DecidableEq (Except ε α) :=
  fun a b =>
    match a, b with
    | .error e1, .error e2 =>
      decidable_of_iff (e1 = e2) ⟨fun h => h ▸ rfl, fun h => by injection h⟩
    | .error _, .ok _ => isFalse fun h => nomatch h
    | .ok _, .error _ => isFalse fun h => nomatch h
    | .ok a1, .ok a2 =>
      decidable_of_iff (a1 = a2) ⟨fun h => h ▸ rfl, fun h => by injection h⟩

/-- A transport response after the status line is known: the status code
and the outcome of reading the body with `ioutil.ReadAll`. -/
structure HttpResponse where
  statusCode : Nat
  bodyRead : Except GoStr GoStr
  deriving DecidableEq

/--
`handleFetch` (identical in both revisions, `http.StatusOK = 200`): on a
fetch error or a body-read error, returns status `0` with that error;
otherwise dispatches the buffered body bytes to the ok handler when the
status is exactly 200 and to the error handler otherwise, returning the
response's status code together with the chosen handler's error.
Handlers (`httpResponseBodyHandler`, `func([]byte) error`) are modelled
as functions to `Option GoStr` (`none` is the nil error).
-/
def handleFetch (fetched : Except GoStr HttpResponse)
    (okHandler errorHandler : GoStr → Option GoStr) : Nat × Option GoStr :=
  match fetched with
  | .error e => (0, some e)
  | .ok res =>
    match res.bodyRead with
    | .error e => (0, some e)
    | .ok body =>
      if res.statusCode = 200 then (res.statusCode, okHandler body)
      else (res.statusCode, errorHandler body)

/-- Claim C8: when the body is read successfully, the ok handler receives
the raw body exactly on status 200, the error handler receives the same
raw body on any other status, and the returned status code equals the
response's status code whichever handler ran and whatever error it
returned. -/
theorem c8_handle_fetch_dispatch (res : HttpResponse) (body : GoStr)
    (okHandler errorHandler : GoStr → Option GoStr)
    (hread : res.bodyRead = .ok body) :
    (res.statusCode = 200 →
      handleFetch (.ok res) okHandler errorHandler = (200, okHandler body)) ∧
    (res.statusCode ≠ 200 →
      handleFetch (.ok res) okHandler errorHandler
        = (res.statusCode, errorHandler body)) ∧
    (handleFetch (.ok res) okHandler errorHandler).1 = res.statusCode := by
  refine ⟨?_, ?_, ?_⟩
  · intro hs
    simp [handleFetch, hread, hs]
  · intro hs
    simp [handleFetch, hread, hs]
  · by_cases hs : res.statusCode = 200 <;> simp [handleFetch, hread, hs]

theorem c8_handle_fetch_dispatch_witness :
    (⟨404, .ok (gs "oops")⟩ : HttpResponse).bodyRead = .ok (gs "oops") ∧
    handleFetch (.ok ⟨404, .ok (gs "oops")⟩)
        (fun _ => none) (fun _ => some (gs "decode failure"))
      = (404, some (gs "decode failure")) :=
  ⟨rfl,
    (c8_handle_fetch_dispatch ⟨404, .ok (gs "oops")⟩ (gs "oops")
        (fun _ => none) (fun _ => some (gs "decode failure")) rfl).2.1
      (by decide)⟩

/-! ## Transport resolution and the second revision of `FetchRawResponse` -/

/-- `isEmpty` from the source. -/
def isEmpty (str : GoStr) : Bool := str.length == 0

/-- A loaded TLS certificate/key pair, identified by its file paths. -/
abbrev TlsCert := GoStr × GoStr

/-- The fields of `http.Transport` the source writes. -/
structure GoTransport where
  disableCompression : Bool
  tlsHandshakeTimeout : Int
  responseHeaderTimeout : Int
  dialTimeoutSet : Bool
  tlsClientConfig : Option TlsCert
  deriving DecidableEq

/-- `requiresCustomTransport` (second revision). -/
def requiresCustomTransport (hr : HttpRequestDescr) : Bool :=
  !(isEmpty hr.tlsCertPath) && !(isEmpty hr.tlsKeyPath)

/-- `createHttpTransport` (second revision): non-zero timeout applied to
TLS handshake, response-header wait and dialing; the client certificate
is loaded (via the `load` oracle standing for `tls.LoadX509KeyPair`)
exactly when both paths are non-empty, and a load failure is returned. -/
def createHttpTransport (load : GoStr → GoStr → Except GoStr TlsCert)
    (hr : HttpRequestDescr) : Except GoStr GoTransport :=
  let transport : GoTransport :=
    { disableCompression := false, tlsHandshakeTimeout := 0,
      responseHeaderTimeout := 0, dialTimeoutSet := false, tlsClientConfig := none }
  let t1 := if hr.timeout ≠ 0 then
      { transport with tlsHandshakeTimeout := hr.timeout,
                       responseHeaderTimeout := hr.timeout, dialTimeoutSet := true }
    else transport
  if !(isEmpty hr.tlsCertPath) && !(isEmpty hr.tlsKeyPath) then
    match load hr.tlsCertPath hr.tlsKeyPath with
    | .error e => .error e
    | .ok cert => .ok { t1 with tlsClientConfig := some cert }
  else .ok t1

/-- `httpCreateTransport` (first revision): always builds a transport,
with a dial timeout when the timeout is non-zero, and loads the TLS pair
exactly when both paths are non-empty. -/
def httpCreateTransport (load : GoStr → GoStr → Except GoStr TlsCert)
    (timeoutMilliseconds : Int) (tlsCertPath tlsKeyPath : GoStr) :
    Except GoStr GoTransport :=
  let transport : GoTransport :=
    { disableCompression := false, tlsHandshakeTimeout := 0,
      responseHeaderTimeout := 0, dialTimeoutSet := false, tlsClientConfig := none }
  let t1 := if timeoutMilliseconds ≠ 0 then { transport with dialTimeoutSet := true }
    else transport
  if !(isEmpty tlsCertPath) && !(isEmpty tlsKeyPath) then
    match load tlsCertPath tlsKeyPath with
    | .error e => .error e
    | .ok cert => .ok { t1 with tlsClientConfig := some cert }
  else .ok t1

/-- Outcome of the second revision's `FetchRawResponse`. -/
inductive FetchOutcome where
  | ok (resp : HttpResponse)
  | errMaterialize (e : RequestError)
  | errTransport (e : GoStr)
  | panicked
  deriving DecidableEq

/-- The client phase of the second revision's `FetchRawResponse`.  The
source declares `var client *http.Client` and never allocates it, so
`client` is nil on every path: assigning `client.Transport` or
`client.Timeout`, and calling `client.Do`, all dereference the nil
pointer.  Only the error return from `createHttpTransport` is reachable
without a panic. -/
def clientPhase (load : GoStr → GoStr → Except GoStr TlsCert)
    (hr : HttpRequestDescr) : FetchOutcome :=
  if requiresCustomTransport hr then
    match createHttpTransport load hr with
    | .error e => .errTransport e
    | .ok _ => .panicked
  else if hr.timeout ≠ 0 then .panicked
  else .panicked

/-- The second revision's `FetchRawResponse`: materialize the request,
then resolve the client.  A network call is never reached because the
nil client is dereferenced first (`client.Do` runs on a nil receiver). -/
def FetchRawResponse (load : GoStr → GoStr → Except GoStr TlsCert)
    (hr : HttpRequestDescr) : FetchOutcome :=
  match createHttpRequest hr with
  | .failed e => .errMaterialize e
  | .panicked => .panicked
  | .nilRequest => clientPhase load hr
  | .materialized _ => clientPhase load hr

/-- The descriptor built by `TestTimeout`:
`NewRequest().AsGet().WithUrl("http://localhost:5001/test/timeout").WithTimeout(1000 * time.Millisecond)`. -/
def hrTimeoutTest : HttpRequestDescr :=
  WithTimeout
    ((WithUrl (AsGet NewRequest) (gs "http://localhost:5001/test/timeout")).getD NewRequest)
    1000000000

/-- Claim C9: the custom-transport decision is exactly "both TLS paths
non-empty", and the first revision's transport builder performs no TLS
customization when either path is empty.  The final part of the claim —
that without a custom transport a configured non-zero timeout is still
honored at the client level — is the intent (and what `TestTimeout`
asserts), but the second revision's `FetchRawResponse` leaves `client`
a nil pointer, so the `TestTimeout` call panics instead of performing
the fetch: a bug in the code. -/
theorem c9_transport_resolution :
    (∀ hr : HttpRequestDescr, requiresCustomTransport hr = true ↔
      hr.tlsCertPath ≠ [] ∧ hr.tlsKeyPath ≠ []) ∧
    (∀ (load : GoStr → GoStr → Except GoStr TlsCert) (t : Int) (c k : GoStr),
      c = [] ∨ k = [] →
      ∃ tr, httpCreateTransport load t c k = .ok tr ∧ tr.tlsClientConfig = none) ∧
    (∀ load : GoStr → GoStr → Except GoStr TlsCert,
      FetchRawResponse load hrTimeoutTest = .panicked) := by
  refine ⟨?_, ?_, ?_⟩
  · intro hr
    simp [requiresCustomTransport, isEmpty, List.length_eq_zero]
  · intro load t c k h
    have hcond : (!(isEmpty c) && !(isEmpty k)) = false := by
      rcases h with h | h <;> simp [isEmpty, h]
    by_cases ht : t ≠ 0 <;> simp [httpCreateTransport, hcond, ht]
  · intro load
    rfl

theorem c9_transport_resolution_witness :
    ((gs "/a/cert.pem" : GoStr) = [] ∨ (gs "" : GoStr) = []) ∧
    (∃ tr, httpCreateTransport (fun _ _ => .error []) 0 (gs "/a/cert.pem") (gs "")
        = .ok tr ∧ tr.tlsClientConfig = none) :=
  ⟨Or.inr rfl,
    c9_transport_resolution.2.1 (fun _ _ => .error []) 0 (gs "/a/cert.pem") (gs "")
      (Or.inr rfl)⟩

/-! ## The mock registry

The mock-response module (`MockedResponse`, `MockResponse`,
`ClearMockedResponses` and the registry consult inside the fetch path) is
exercised by `mock_test.go` but its implementation is not among the
source files; the definitions below are modelled from the spec
(sections 3, 4.3 and 4.4 and design note on responders). -/

/-- Modelled from the spec: `MockedResponse` is pure data — response body
bytes and a status code. -/
structure MockedResponse where
  responseBody : GoStr
  statusCode : Nat
  deriving DecidableEq

/-- Modelled from the spec: a responder is a callable test double that
produces a `MockedResponse` on each invocation and may carry private
mutable state (e.g. an index into a list) across invocations.  A
deterministic responder with no inputs is a function of its invocation
count; the count is the private state and persists in the registry
entry. -/
structure Responder where
  produce : Nat → MockedResponse
  calls : Nat

/-- A registry key: (verb, fully-qualified URL). -/
abbrev MockKey := GoStr × GoStr

/-- Modelled from the spec: the process-wide keyed store, passed
explicitly. -/
abbrev MockRegistry := List (MockKey × Responder)

/-- Replace-or-insert for the registry (registration overwrites the
responder for an exact key). -/
def mockSet (reg : MockRegistry) (key : MockKey) (r : Responder) : MockRegistry :=
  match reg with
  | [] => [(key, r)]
  | (k, r0) :: rest =>
    if k = key then (key, r) :: rest else (k, r0) :: mockSet rest key r

/-- Modelled from the spec: `MockResponse(verb, url, responder)`
registers/overwrites the responder for that exact key; a fresh closure
has performed no invocations. -/
def MockResponse (verb url : GoStr) (produce : Nat → MockedResponse)
    (reg : MockRegistry) : MockRegistry :=
  mockSet reg (verb, url) { produce := produce, calls := 0 }

/-- Modelled from the spec: `ClearMockedResponses()` removes all
entries. -/
def ClearMockedResponses (_ : MockRegistry) : MockRegistry := []

/-- Exact-match lookup on (verb, normalized full URL); no pattern
matching. -/
def mockLookup (reg : MockRegistry) (key : MockKey) : Option Responder :=
  match reg with
  | [] => none
  | (k, r) :: rest => if k = key then some r else mockLookup rest key

/-- Record one invocation of the responder registered at `key`. -/
def mockBump (reg : MockRegistry) (key : MockKey) : MockRegistry :=
  match reg with
  | [] => []
  | (k, r) :: rest =>
    if k = key then (k, { r with calls := r.calls + 1 }) :: rest
    else (k, r) :: mockBump rest key

/-- The key a descriptor is looked up under: its verb and its
fully-qualified URL. -/
def mockKeyOf (hr : HttpRequestDescr) : MockKey := (hr.verb, createUrl hr)

/-- The response synthesized from a `MockedResponse`: its status code,
and its body bytes read successfully. -/
def synthesizeResponse (m : MockedResponse) : HttpResponse :=
  { statusCode := m.statusCode, bodyRead := .ok m.responseBody }

/-- Modelled from the spec (§4.3): the fetch path consults the registry
for (verb, fully-qualified URL); on a hit it short-circuits the network
entirely and synthesizes the response from the responder's
`MockedResponse`, recording the invocation; otherwise the real transport
(the `transport` oracle) performs the call. -/
def fetchRawResponseMocked (reg : MockRegistry)
    (transport : MockKey → Except GoStr HttpResponse)
    (hr : HttpRequestDescr) : Except GoStr HttpResponse × MockRegistry :=
  match mockLookup reg (mockKeyOf hr) with
  | some r =>
    (.ok (synthesizeResponse (r.produce r.calls)), mockBump reg (mockKeyOf hr))
  | none => (transport (mockKeyOf hr), reg)

/-- Three sequential fetches of the same descriptor, threading the
registry state. -/
def fetchThrice (reg : MockRegistry)
    (transport : MockKey → Except GoStr HttpResponse) (hr : HttpRequestDescr) :
    (Except GoStr HttpResponse × Except GoStr HttpResponse ×
      Except GoStr HttpResponse) × MockRegistry :=
  let r1 := fetchRawResponseMocked reg transport hr
  let r2 := fetchRawResponseMocked r1.2 transport hr
  let r3 := fetchRawResponseMocked r2.2 transport hr
  ((r1.1, r2.1, r3.1), r3.2)

/-- Claim C1: with a registry entry for the descriptor's (verb, URL) key,
the fetch returns the response synthesized from the responder's
`MockedResponse` and is independent of the real transport; with no entry
(in particular after `ClearMockedResponses`) the real transport performs
the call. -/
theorem c1_mock_short_circuit (reg : MockRegistry)
    (t1 t2 : MockKey → Except GoStr HttpResponse) (hr : HttpRequestDescr) :
    (∀ r, mockLookup reg (mockKeyOf hr) = some r →
      (fetchRawResponseMocked reg t1 hr).1
          = .ok (synthesizeResponse (r.produce r.calls)) ∧
      fetchRawResponseMocked reg t1 hr = fetchRawResponseMocked reg t2 hr) ∧
    (mockLookup reg (mockKeyOf hr) = none →
      fetchRawResponseMocked reg t1 hr = (t1 (mockKeyOf hr), reg)) ∧
    mockLookup (ClearMockedResponses reg) (mockKeyOf hr) = none := by
  refine ⟨?_, ?_, rfl⟩
  · intro r hl
    constructor <;> simp [fetchRawResponseMocked, hl]
  · intro hl
    simp [fetchRawResponseMocked, hl]

/-- The responder registered by the mock test fixture below. -/
def helloResponder (_n : Nat) : MockedResponse := ⟨gs "hello", 200⟩

/-- A transport standing for an unreachable network. -/
def noNetwork (_k : MockKey) : Except GoStr HttpResponse :=
  .error (gs "connection refused")

theorem c1_mock_short_circuit_witness :
    (fetchRawResponseMocked
        (MockResponse NewRequest.verb (createUrl NewRequest) helloResponder [])
        noNetwork NewRequest).1
      = .ok (synthesizeResponse (helloResponder 0)) ∧
    mockLookup
        (ClearMockedResponses
          (MockResponse NewRequest.verb (createUrl NewRequest) helloResponder []))
        (mockKeyOf NewRequest)
      = none :=
  ⟨((c1_mock_short_circuit
      (MockResponse NewRequest.verb (createUrl NewRequest) helloResponder [])
      noNetwork noNetwork NewRequest).1
      { produce := helloResponder, calls := 0 } rfl).1,
    (c1_mock_short_circuit
      (MockResponse NewRequest.verb (createUrl NewRequest) helloResponder [])
      noNetwork noNetwork NewRequest).2.2⟩

/-- Claim C2: a stateful responder registered once for a key yields, over
three sequential fetches, the three bodies of its invocation sequence in
registration order; the private state (the invocation count) persists
across the fetches, ending at 3, and when the three bodies are pairwise
distinct so are the three synthesized responses. -/
theorem c2_stateful_responder (t : MockKey → Except GoStr HttpResponse)
    (hr : HttpRequestDescr) (f : Nat → MockedResponse)
    (hdist : (f 0).responseBody ≠ (f 1).responseBody ∧
      (f 0).responseBody ≠ (f 2).responseBody ∧
      (f 1).responseBody ≠ (f 2).responseBody) :
    (fetchThrice (MockResponse hr.verb (createUrl hr) f []) t hr).1
        = (.ok (synthesizeResponse (f 0)), .ok (synthesizeResponse (f 1)),
            .ok (synthesizeResponse (f 2))) ∧
    synthesizeResponse (f 0) ≠ synthesizeResponse (f 1) ∧
    synthesizeResponse (f 0) ≠ synthesizeResponse (f 2) ∧
    synthesizeResponse (f 1) ≠ synthesizeResponse (f 2) ∧
    (mockLookup (fetchThrice (MockResponse hr.verb (createUrl hr) f []) t hr).2
        (mockKeyOf hr)).map Responder.calls = some 3 := by
  have hkey : mockKeyOf hr = (hr.verb, createUrl hr) := rfl
  refine ⟨?_, ?_, ?_, ?_, ?_⟩
  · simp [fetchThrice, fetchRawResponseMocked, MockResponse, mockSet,
      mockLookup, mockBump, hkey]
  · intro h
    exact hdist.1 (congrArg (fun r => match r.bodyRead with
      | .ok b => b | .error _ => []) h)
  · intro h
    exact hdist.2.1 (congrArg (fun r => match r.bodyRead with
      | .ok b => b | .error _ => []) h)
  · intro h
    exact hdist.2.2 (congrArg (fun r => match r.bodyRead with
      | .ok b => b | .error _ => []) h)
  · simp [fetchThrice, fetchRawResponseMocked, MockResponse, mockSet,
      mockLookup, mockBump, hkey]

/-- The three bodies registered by `TestFileServiceRequestScheduler` and
its index-carrying closure. -/
def schedulerBodies : List GoStr :=
  [gs "\x7b\"id\" : 0, \"deployment_id\": 2 \x7d",
   gs "\x7b\"id\" : 1, \"deployment_id\": 2 \x7d",
   gs "\x7b\"id\" : 2, \"deployment_id\": 2 \x7d"]

def schedulerResponder (n : Nat) : MockedResponse :=
  ⟨schedulerBodies.getD n [], 200⟩

theorem c2_stateful_responder_witness :
    ((schedulerResponder 0).responseBody ≠ (schedulerResponder 1).responseBody ∧
      (schedulerResponder 0).responseBody ≠ (schedulerResponder 2).responseBody ∧
      (schedulerResponder 1).responseBody ≠ (schedulerResponder 2).responseBody) ∧
    (fetchThrice
        (MockResponse NewRequest.verb (createUrl NewRequest) schedulerResponder [])
        noNetwork NewRequest).1
      = (.ok (synthesizeResponse (schedulerResponder 0)),
          .ok (synthesizeResponse (schedulerResponder 1)),
          .ok (synthesizeResponse (schedulerResponder 2))) :=
  ⟨by decide,
    (c2_stateful_responder noNetwork NewRequest schedulerResponder (by decide)).1⟩

end GoRequest
